import Mathlib

/-!
Verification of the `static_vector` fixed-capacity container
(`src/include/static_vector.h`).

Two complementary shallow embeddings are developed.

1. A functional value model: `static_vector T Capacity` holds the list of
   live elements (the contents of storage slots `[0, count)`), and each
   member function of the C++ class is translated to a Lean function whose
   branching mirrors the source (`size_ >= Capacity` guard in
   `emplace_back`/`push_back`, `size_ == 0` guard in `pop_back`, the
   `pos < size_` / `size_ > 0` conditions in `at_if`/`front_if`/`back_if`).

2. A world model instrumented for object lifetime: containers live in a
   `World`, every constructed element carries a ghost identity (a natural
   number allocated from a counter), and every destructor call is recorded
   in a trace.  The `step` function translates each C++ special member
   function and mutator, including the address-equality self-assignment
   guards (`this != &other`) and the fact that the move constructor sets
   `other.size_ = 0` without destroying the moved-from elements (those
   identities are recorded in the ghost `leaked` ledger).
-/

set_option linter.unusedVariables false

/-- The error enumeration of `static_vector.h` (`StaticVectorErrorCode`). -/
inductive StaticVectorErrorCode : Type where
  | NoError : StaticVectorErrorCode
  | OutOfSpace : StaticVectorErrorCode
  | OutOfRange : StaticVectorErrorCode
  | Empty : StaticVectorErrorCode
  | CannotDefaultConstruct : StaticVectorErrorCode
deriving DecidableEq, Repr

/-- Functional model of `static_vector<T, Capacity>`: the field `elems` is
the sequence of live elements occupying storage slots `[0, count)`, so
`size_` is `elems.length`. -/
structure static_vector (T : Type) (Capacity : Nat) : Type where
  elems : List T
deriving DecidableEq

namespace static_vector

variable {T : Type} {Capacity : Nat}

/-- `size()`: returns `size_`. -/
def size (v : static_vector T Capacity) : Nat :=
  v.elems.length

/-- `capacity()`: returns the compile-time constant `Capacity`. -/
def capacity (v : static_vector T Capacity) : Nat :=
  Capacity

/-- `empty()`: `size_ == 0`. -/
def empty (v : static_vector T Capacity) : Bool :=
  v.size == 0

/-- Default constructor: `size_ = 0`, no elements constructed. -/
def mkEmpty : static_vector T Capacity :=
  ⟨[]⟩

/-- `emplace_back(args...)`: if `size_ >= Capacity` return `OutOfSpace`
without mutation; otherwise construct the new element (modelled by its
constructed value `x`) at slot `size_` and increment `size_`. -/
def emplace_back (v : static_vector T Capacity) (x : T) :
    StaticVectorErrorCode × static_vector T Capacity :=
  if v.size ≥ Capacity then (.OutOfSpace, v)
  else (.NoError, ⟨v.elems ++ [x]⟩)

/-- `push_back(value)` (both the copy and the move overload construct the
argument's value at slot `size_`; the two overloads have identical control
flow): if `size_ >= Capacity` return `OutOfSpace` without mutation;
otherwise append and increment `size_`. -/
def push_back (v : static_vector T Capacity) (x : T) :
    StaticVectorErrorCode × static_vector T Capacity :=
  if v.size ≥ Capacity then (.OutOfSpace, v)
  else (.NoError, ⟨v.elems ++ [x]⟩)

/-- `pop_back()`: if `size_ == 0` return `Empty` without mutation;
otherwise decrement `size_` and destroy `data()[size_]` (the last live
element), i.e. the live sequence becomes `elems.dropLast`. -/
def pop_back (v : static_vector T Capacity) :
    StaticVectorErrorCode × static_vector T Capacity :=
  if v.size = 0 then (.Empty, v)
  else (.NoError, ⟨v.elems.dropLast⟩)

/-- `clear()`: destroys all live elements and sets `size_ = 0`. -/
def clear (v : static_vector T Capacity) : static_vector T Capacity :=
  ⟨[]⟩

/-- `at_if(pos)`: `pos < size_ ? &data()[pos] : nullptr`.  The returned
pointer is modelled by the optional value it points at. -/
def at_if (v : static_vector T Capacity) (pos : Nat) : Option T :=
  if pos < v.size then v.elems[pos]? else none

/-- `front_if()`: `size_ > 0 ? &data()[0] : nullptr`. -/
def front_if (v : static_vector T Capacity) : Option T :=
  if v.size > 0 then v.elems[0]? else none

/-- `back_if()`: `size_ > 0 ? &data()[size_ - 1] : nullptr`. -/
def back_if (v : static_vector T Capacity) : Option T :=
  if v.size > 0 then v.elems[v.size - 1]? else none

/-- Running a whole sequence of `push_back` calls, collecting the returned
error codes (used to state the "N successive pushes" property). -/
def pushSeq (v : static_vector T Capacity) (xs : List T) :
    List StaticVectorErrorCode × static_vector T Capacity :=
  match xs with
  | [] => ([], v)
  | x :: rest =>
    let r := v.push_back x
    let t := pushSeq r.2 rest
    (r.1 :: t.1, t.2)

end static_vector

/-! ## World model: object identities and destructor trace

Each live storage slot holds a pair `(id, value)`: `id` is a ghost
identity allocated when the element object is constructed (placement
`new` in the source), `value` is the element's value.  Every execution of
`~T()` in the source appends the destroyed object's identity to
`destroyed`.  The move constructor sets `other.size_ = 0` without running
any destructor; the identities of those moved-from elements are recorded
in the ghost `leaked` ledger (nothing in the source ever destroys them
again). -/

/-- The element identities of a slot list. -/
def ids {T : Type} (l : List (Nat × T)) : List Nat :=
  l.map Prod.fst

/-- The element values of a slot list. -/
def vals {T : Type} (l : List (Nat × T)) : List T :=
  l.map Prod.snd

/-- Fresh copies of a slot list: each slot gets a newly allocated identity
(`n`, `n+1`, ...) while the value is copy/move-constructed from the
corresponding source slot (`std::uninitialized_copy_n` /
`std::uninitialized_move_n` in the source). -/
def refresh {T : Type} (n : Nat) : List (Nat × T) → List (Nat × T)
  | [] => []
  | c :: cs => (n, c.snd) :: refresh (n + 1) cs

/-- A world of `static_vector<T, Capacity>` objects.  `vecs` maps each
container (by creation index) to its live slots; `next` is the ghost
allocator for element identities; `destroyed` is the trace of executed
element destructors; `leaked` records identities abandoned by the move
constructor. -/
structure World (T : Type) (Capacity : Nat) : Type where
  next : Nat
  vecs : List (List (Nat × T))
  destroyed : List Nat
  leaked : List Nat
deriving DecidableEq

/-- The operations a client can perform on the containers of a world.
Container arguments are indices into `World.vecs`; an index that does not
denote a container makes the operation a no-op (such a call does not occur
in a well-formed C++ program). -/
inductive Op (T : Type) : Type where
  | default_construct : Op T
  | push_back : Nat → T → Op T
  | pop_back : Nat → Op T
  | clear : Nat → Op T
  | write : Nat → Nat → T → Op T
  | copy_construct : Nat → Op T
  | move_construct : Nat → Op T
  | copy_assign : Nat → Nat → Op T
  | move_assign : Nat → Nat → Op T
deriving DecidableEq

/-- One operation of the world model, translated member by member from
`static_vector.h`:
* `default_construct`: `static_vector()` — a new empty container.
* `push_back c x`: the `size_ >= Capacity` guard, then placement-new of a
  fresh object at slot `size_` and `++size_`.
* `pop_back c`: the `size_ == 0` guard, then `--size_` and
  `data()[size_].~T()` (the last slot's destructor runs).
* `clear c`: destroys slots `0, 1, ..., size_-1` in order, `size_ = 0`.
* `write c i x`: `v[i] = x` through `operator[]` — the stored object is
  assigned a new value, no construction or destruction.
* `copy_construct s`: copy constructor — fresh objects copy-constructed
  from the source slots, source untouched.
* `move_construct s`: move constructor — fresh objects move-constructed
  from the source slots, then `other.size_ = 0` WITHOUT destroying the
  moved-from objects (their identities go to `leaked`).
* `copy_assign d s`: `if (this != &other) { clear(); copy in; }`.
* `move_assign d s`: `if (this != &other) { clear(); move in;
  other.clear(); }` — here the source's moved-from objects ARE destroyed.
-/
def step {T : Type} {Capacity : Nat} (w : World T Capacity) :
    Op T → World T Capacity
  | .default_construct => { w with vecs := w.vecs ++ [[]] }
  | .push_back c x =>
    if c < w.vecs.length then
      if (w.vecs.getD c []).length ≥ Capacity then w
      else { w with
             vecs := w.vecs.set c (w.vecs.getD c [] ++ [(w.next, x)]),
             next := w.next + 1 }
    else w
  | .pop_back c =>
    if c < w.vecs.length then
      if (w.vecs.getD c []).length = 0 then w
      else { w with
             vecs := w.vecs.set c (w.vecs.getD c []).dropLast,
             destroyed := w.destroyed ++
               ids ((w.vecs.getD c []).drop ((w.vecs.getD c []).length - 1)) }
    else w
  | .clear c =>
    if c < w.vecs.length then
      { w with vecs := w.vecs.set c [],
               destroyed := w.destroyed ++ ids (w.vecs.getD c []) }
    else w
  | .write c i x =>
    if c < w.vecs.length then
      if i < (w.vecs.getD c []).length then
        { w with vecs := w.vecs.set c ((w.vecs.getD c []).set i
                   ((ids (w.vecs.getD c [])).getD i 0, x)) }
      else w
    else w
  | .copy_construct s =>
    if s < w.vecs.length then
      { w with vecs := w.vecs ++ [refresh w.next (w.vecs.getD s [])],
               next := w.next + (w.vecs.getD s []).length }
    else w
  | .move_construct s =>
    if s < w.vecs.length then
      { w with vecs := (w.vecs.set s []) ++ [refresh w.next (w.vecs.getD s [])],
               next := w.next + (w.vecs.getD s []).length,
               leaked := w.leaked ++ ids (w.vecs.getD s []) }
    else w
  | .copy_assign d s =>
    if d < w.vecs.length ∧ s < w.vecs.length then
      if d = s then w
      else
        { w with vecs := w.vecs.set d (refresh w.next (w.vecs.getD s [])),
                 destroyed := w.destroyed ++ ids (w.vecs.getD d []),
                 next := w.next + (w.vecs.getD s []).length }
    else w
  | .move_assign d s =>
    if d < w.vecs.length ∧ s < w.vecs.length then
      if d = s then w
      else
        { w with vecs := (w.vecs.set d (refresh w.next (w.vecs.getD s []))).set s [],
                 destroyed := w.destroyed ++ ids (w.vecs.getD d [])
                   ++ ids (w.vecs.getD s []),
                 next := w.next + (w.vecs.getD s []).length }
    else w

/-- Run a sequence of operations. -/
def run {T : Type} {Capacity : Nat} (w : World T Capacity)
    (ops : List (Op T)) : World T Capacity :=
  ops.foldl step w

/-- End of scope: every container's destructor runs (`~static_vector()`
calls `clear()`), destroying all still-live elements. -/
def finish {T : Type} {Capacity : Nat} (w : World T Capacity) :
    World T Capacity :=
  { w with vecs := [],
           destroyed := w.destroyed ++ (w.vecs.map ids).flatten }

/-- The initial world: no containers, no objects ever constructed. -/
def initWorld {T : Type} {Capacity : Nat} : World T Capacity :=
  ⟨0, [], [], []⟩

/-- All identities currently live in some container of the world. -/
def live {T : Type} {Capacity : Nat} (w : World T Capacity) : List Nat :=
  (w.vecs.map ids).flatten

/-- How often identity `a` occurs across the world: live occurrences plus
destructor executions plus leaked occurrences. -/
def counts {T : Type} {Capacity : Nat} (w : World T Capacity) (a : Nat) :
    Nat :=
  (live w).count a + w.destroyed.count a + w.leaked.count a

/-- Lifetime well-formedness: every identity ever allocated (below `next`)
occurs exactly once in the world — it is live, or destroyed once, or
leaked once — and unallocated identities occur nowhere. -/
def WF {T : Type} {Capacity : Nat} (w : World T Capacity) : Prop :=
  ∀ a : Nat, counts w a = if a < w.next then 1 else 0

/-- Capacity well-formedness: no container holds more than `Capacity`
live elements. -/
def SizeInv {T : Type} {Capacity : Nat} (w : World T Capacity) : Prop :=
  ∀ v ∈ w.vecs, v.length ≤ Capacity

/-! ## List helper lemmas -/

theorem list_getD_map {α β : Type} (f : α → β) (l : List α) (n : Nat)
    (d : α) : (l.map f).getD n (f d) = f (l.getD n d) := by
  induction l generalizing n with
  | nil => simp [List.getD]
  | cons x xs ih =>
    cases n with
    | zero => simp
    | succ m => simpa using ih m

theorem list_set_getD_self {α : Type} (l : List α) (n : Nat) (d : α) :
    l.set n (l.getD n d) = l := by
  induction l generalizing n with
  | nil => simp
  | cons x xs ih =>
    cases n with
    | zero => simp
    | succ m => simpa using ih m

theorem count_flatten_set (L : List (List Nat)) (c : Nat)
    (h : c < L.length) (v' : List Nat) (a : Nat) :
    ((L.set c v').flatten).count a + (L.getD c []).count a
      = L.flatten.count a + v'.count a := by
  induction L generalizing c with
  | nil => simp at h
  | cons x xs ih =>
    cases c with
    | zero =>
      simp only [List.set_cons_zero, List.flatten_cons, List.count_append,
        List.getD_cons_zero]
      omega
    | succ m =>
      have hm : m < xs.length := by simpa using h
      have hih := ih m hm
      simp only [List.set_cons_succ, List.flatten_cons, List.count_append,
        List.getD_cons_succ]
      omega

theorem list_getD_append_lt {α : Type} (l₁ l₂ : List α) (c : Nat) (d : α)
    (h : c < l₁.length) : (l₁ ++ l₂).getD c d = l₁.getD c d := by
  induction l₁ generalizing c with
  | nil => simp at h
  | cons x xs ih =>
    cases c with
    | zero => simp
    | succ m =>
      have hm : m < xs.length := by simpa using h
      simpa using ih m hm

theorem list_getD_concat_self {α : Type} (l : List α) (x : α) (d : α) :
    (l ++ [x]).getD l.length d = x := by
  induction l with
  | nil => simp
  | cons y ys ih => simpa using ih

theorem list_getD_set_ne {α : Type} (l : List α) (i j : Nat) (x d : α)
    (h : i ≠ j) : (l.set i x).getD j d = l.getD j d := by
  induction l generalizing i j with
  | nil => simp
  | cons y ys ih =>
    cases i with
    | zero =>
      cases j with
      | zero => exact absurd rfl h
      | succ m => simp
    | succ n =>
      cases j with
      | zero => simp
      | succ m => simpa using ih n m (by omega)

theorem list_getD_set_self {α : Type} (l : List α) (i : Nat) (x d : α)
    (h : i < l.length) : (l.set i x).getD i d = x := by
  induction l generalizing i with
  | nil => simp at h
  | cons y ys ih =>
    cases i with
    | zero => simp
    | succ n =>
      have hn : n < ys.length := by simpa using h
      simpa using ih n hn

theorem ids_refresh_count {T : Type} (n : Nat) (l : List (Nat × T))
    (a : Nat) :
    (ids (refresh n l)).count a
      = if n ≤ a ∧ a < n + l.length then 1 else 0 := by
  induction l generalizing n with
  | nil => simp [refresh, ids]; split_ifs <;> omega
  | cons x xs ih =>
    have := ih (n + 1)
    simp only [refresh, ids, List.map_cons, List.count_cons, beq_iff_eq]
      at this ⊢
    rw [this]
    by_cases hna : n = a <;> by_cases hle : n + 1 ≤ a <;>
      simp [hna, hle] <;> split_ifs <;> omega

theorem vals_refresh {T : Type} (n : Nat) (l : List (Nat × T)) :
    vals (refresh n l) = vals l := by
  induction l generalizing n with
  | nil => simp [refresh, vals]
  | cons x xs ih => simp [refresh, vals] at ih ⊢; exact ih (n + 1)

theorem length_refresh {T : Type} (n : Nat) (l : List (Nat × T)) :
    (refresh n l).length = l.length := by
  induction l generalizing n with
  | nil => simp [refresh]
  | cons x xs ih => simp [refresh]; exact ih (n + 1)

theorem count_dropLast_add {α : Type} [BEq α] (l : List α) (a : α) :
    l.dropLast.count a + (l.drop (l.length - 1)).count a = l.count a := by
  have h := List.take_append_drop (l.length - 1) l
  calc l.dropLast.count a + (l.drop (l.length - 1)).count a
      = ((l.take (l.length - 1)) ++ l.drop (l.length - 1)).count a := by
        rw [List.count_append, List.dropLast_eq_take]
    _ = l.count a := by rw [h]

theorem getD_map_ids {T : Type} (l : List (List (Nat × T))) (c : Nat) :
    (l.map ids).getD c [] = ids (l.getD c []) :=
  list_getD_map ids l c []

/-- Setting slot `c` of a vector list changes the live-identity count by
swapping the old slot contents for the new ones. -/
theorem set_flatten_count {T : Type} (L : List (List (Nat × T))) (c : Nat)
    (h : c < L.length) (v' : List (Nat × T)) (a : Nat) :
    (((L.set c v').map ids).flatten).count a + (ids (L.getD c [])).count a
      = ((L.map ids).flatten).count a + (ids v').count a := by
  rw [List.map_set]
  have hc : c < (L.map ids).length := by simpa using h
  have hmain := count_flatten_set (L.map ids) c hc (ids v') a
  rwa [getD_map_ids] at hmain

/-- Appending a new container adds its identities to the live count. -/
theorem concat_flatten_count {T : Type} (L : List (List (Nat × T)))
    (nv : List (Nat × T)) (a : Nat) :
    (((L ++ [nv]).map ids).flatten).count a
      = ((L.map ids).flatten).count a + (ids nv).count a := by
  simp [List.map_append, List.flatten_append, List.count_append]

/-- Writing a value through `operator[]` keeps the slot's identity. -/
theorem ids_set_value {T : Type} (v : List (Nat × T)) (i : Nat) (x : T) :
    ids (v.set i ((ids v).getD i 0, x)) = ids v := by
  show (v.set i ((ids v).getD i 0, x)).map Prod.fst = ids v
  rw [List.map_set]
  exact list_set_getD_self (ids v) i 0

theorem drop_length_sub_one {α : Type} (l : List α) (d : α) (h : l ≠ []) :
    l.drop (l.length - 1) = [l.getD (l.length - 1) d] := by
  induction l with
  | nil => exact absurd rfl h
  | cons x xs ih =>
    cases xs with
    | nil => simp
    | cons y ys =>
      have hne : (y :: ys) ≠ [] := by simp
      have h2 := ih hne
      simp only [List.length_cons, Nat.add_sub_cancel] at h2 ⊢
      rw [List.drop_succ_cons, h2, List.getD_cons_succ]

theorem ids_dropLast_count {T : Type} (v : List (Nat × T)) (a : Nat) :
    (ids v.dropLast).count a + (ids (v.drop (v.length - 1))).count a
      = (ids v).count a := by
  simp only [ids]
  rw [List.map_dropLast, List.map_drop]
  have h := count_dropLast_add (v.map Prod.fst) a
  rw [List.length_map] at h
  exact h

/-! ## Preservation of the lifetime invariant -/

theorem next_mono {T : Type} {Capacity : Nat} (w : World T Capacity)
    (op : Op T) : w.next ≤ (step w op).next := by
  cases op with
  | default_construct => simp [step]
  | push_back c x => simp only [step]; split_ifs <;> simp
  | pop_back c => simp only [step]; split_ifs <;> simp
  | clear c => simp only [step]; split_ifs <;> simp
  | write c i x => simp only [step]; split_ifs <;> simp
  | copy_construct s => simp only [step]; split_ifs <;> simp
  | move_construct s => simp only [step]; split_ifs <;> simp
  | copy_assign d s => simp only [step]; split_ifs <;> simp
  | move_assign d s => simp only [step]; split_ifs <;> simp

/-- Each operation changes the world's identity accounting by exactly the
identities it freshly allocates: every already-allocated identity keeps
its total multiplicity across live slots, the destructor trace and the
leak ledger, and each freshly allocated identity appears exactly once. -/
theorem counts_step {T : Type} {Capacity : Nat} (w : World T Capacity)
    (op : Op T) (a : Nat) :
    counts (step w op) a
      = counts w a +
        (if w.next ≤ a ∧ a < (step w op).next then 1 else 0) := by
  have hno : ¬(w.next ≤ a ∧ a < w.next) := by omega
  cases op with
  | default_construct =>
    simp only [step, counts, live]
    rw [concat_flatten_count]
    simp [ids, hno]
  | push_back c x =>
    by_cases hc : c < w.vecs.length
    · by_cases hfull : (w.vecs.getD c []).length ≥ Capacity
      · simp only [step, if_pos hc, if_pos hfull]
        simp [hno]
      · simp only [step, if_pos hc, if_neg hfull]
        have hkey := set_flatten_count w.vecs c hc
          (w.vecs.getD c [] ++ [(w.next, x)]) a
        have hids : (ids (w.vecs.getD c [] ++ [(w.next, x)])).count a
            = (ids (w.vecs.getD c [])).count a
              + (if w.next = a then 1 else 0) := by
          simp only [ids, List.map_append, List.map_cons, List.map_nil,
            List.count_append, List.count_singleton, beq_iff_eq]
        rw [hids] at hkey
        simp only [counts, live]
        split_ifs at hkey ⊢ <;> omega
    · simp only [step, if_neg hc]
      simp [hno]
  | pop_back c =>
    by_cases hc : c < w.vecs.length
    · by_cases hz : (w.vecs.getD c []).length = 0
      · simp only [step, if_pos hc, if_pos hz]
        simp [hno]
      · simp only [step, if_pos hc, if_neg hz]
        have hkey := set_flatten_count w.vecs c hc
          (w.vecs.getD c []).dropLast a
        have hsplit := ids_dropLast_count (w.vecs.getD c []) a
        simp only [counts, live, List.count_append, hno, if_false]
        omega
    · simp only [step, if_neg hc]
      simp [hno]
  | clear c =>
    by_cases hc : c < w.vecs.length
    · simp only [step, if_pos hc]
      have hkey := set_flatten_count w.vecs c hc [] a
      have hnil : (ids ([] : List (Nat × T))).count a = 0 := by simp [ids]
      simp only [counts, live, List.count_append, hno, if_false]
      omega
    · simp only [step, if_neg hc]
      simp [hno]
  | write c i x =>
    by_cases hc : c < w.vecs.length
    · by_cases hi : i < (w.vecs.getD c []).length
      · simp only [step, if_pos hc, if_pos hi]
        have hkey := set_flatten_count w.vecs c hc
          ((w.vecs.getD c []).set i
            ((ids (w.vecs.getD c [])).getD i 0, x)) a
        rw [ids_set_value] at hkey
        simp only [counts, live, hno, if_false]
        omega
      · simp only [step, if_pos hc, if_neg hi]
        simp [hno]
    · simp only [step, if_neg hc]
      simp [hno]
  | copy_construct s =>
    by_cases hs : s < w.vecs.length
    · simp only [step, if_pos hs]
      have happ := concat_flatten_count w.vecs
        (refresh w.next (w.vecs.getD s [])) a
      have hr := ids_refresh_count w.next (w.vecs.getD s []) a
      rw [hr] at happ
      simp only [counts, live]
      split_ifs at happ ⊢ <;> omega
    · simp only [step, if_neg hs]
      simp [hno]
  | move_construct s =>
    by_cases hs : s < w.vecs.length
    · simp only [step, if_pos hs]
      have happ := concat_flatten_count (w.vecs.set s [])
        (refresh w.next (w.vecs.getD s [])) a
      have hset := set_flatten_count w.vecs s hs [] a
      have hr := ids_refresh_count w.next (w.vecs.getD s []) a
      have hnil : (ids ([] : List (Nat × T))).count a = 0 := by simp [ids]
      rw [hr] at happ
      simp only [counts, live, List.count_append]
      split_ifs at happ ⊢ <;> omega
    · simp only [step, if_neg hs]
      simp [hno]
  | copy_assign d s =>
    by_cases hds : d < w.vecs.length ∧ s < w.vecs.length
    · by_cases hdd : d = s
      · simp only [step, if_pos hds, if_pos hdd]
        simp [hno]
      · simp only [step, if_pos hds, if_neg hdd]
        have hkey := set_flatten_count w.vecs d hds.1
          (refresh w.next (w.vecs.getD s [])) a
        have hr := ids_refresh_count w.next (w.vecs.getD s []) a
        rw [hr] at hkey
        simp only [counts, live, List.count_append]
        split_ifs at hkey ⊢ <;> omega
    · simp only [step, if_neg hds]
      simp [hno]
  | move_assign d s =>
    by_cases hds : d < w.vecs.length ∧ s < w.vecs.length
    · by_cases hdd : d = s
      · simp only [step, if_pos hds, if_pos hdd]
        simp [hno]
      · simp only [step, if_pos hds, if_neg hdd]
        have h1 := set_flatten_count w.vecs d hds.1
          (refresh w.next (w.vecs.getD s [])) a
        have hlen : s < (w.vecs.set d
            (refresh w.next (w.vecs.getD s []))).length := by
          simpa using hds.2
        have h2 := set_flatten_count
          (w.vecs.set d (refresh w.next (w.vecs.getD s []))) s hlen [] a
        have h3 : (w.vecs.set d
              (refresh w.next (w.vecs.getD s []))).getD s []
            = w.vecs.getD s [] :=
          list_getD_set_ne _ d s _ _ hdd
        rw [h3] at h2
        have hr := ids_refresh_count w.next (w.vecs.getD s []) a
        have hnil : (ids ([] : List (Nat × T))).count a = 0 := by simp [ids]
        rw [hr] at h1
        simp only [counts, live, List.count_append]
        split_ifs at h1 ⊢ <;> omega
    · simp only [step, if_neg hds]
      simp [hno]

/-- `step` preserves the lifetime invariant. -/
theorem WF_step {T : Type} {Capacity : Nat} (w : World T Capacity)
    (op : Op T) (hw : WF w) : WF (step w op) := by
  intro a
  have h1 := counts_step w op a
  have h2 := next_mono w op
  rw [h1, hw a]
  split_ifs <;> omega

/-- The initial world satisfies the lifetime invariant. -/
theorem WF_init {T : Type} {Capacity : Nat} :
    WF (initWorld : World T Capacity) := by
  intro a
  simp [counts, live, initWorld]

/-- Any run from a well-formed world stays well-formed. -/
theorem WF_run {T : Type} {Capacity : Nat} (ops : List (Op T))
    (w : World T Capacity) (hw : WF w) : WF (run w ops) := by
  induction ops generalizing w with
  | nil => exact hw
  | cons op rest ih => exact ih (step w op) (WF_step w op hw)

/-- Destroying every container preserves the identity accounting: the
still-live identities move into the destructor trace. -/
theorem WF_finish {T : Type} {Capacity : Nat} (w : World T Capacity)
    (hw : WF w) : WF (finish w) := by
  intro a
  have h := hw a
  simp only [counts, live, finish, List.count_append] at h ⊢
  simp only [List.map_nil, List.flatten_nil, List.count_nil]
  omega

theorem getD_mem_of_lt {T : Type} {Capacity : Nat} (w : World T Capacity)
    (c : Nat) (hc : c < w.vecs.length) : w.vecs.getD c [] ∈ w.vecs := by
  rw [List.getD_eq_getElem _ _ hc]
  exact List.getElem_mem hc

/-- Every operation keeps each container's live count within `Capacity`:
the only growing operation, tail insertion, is guarded by the
`size_ >= Capacity` check, and the copy/move operations transfer a count
already known to be within bounds. -/
theorem SizeInv_step {T : Type} {Capacity : Nat} (w : World T Capacity)
    (op : Op T) (hs : SizeInv w) : SizeInv (step w op) := by
  cases op with
  | default_construct =>
    intro v hv
    simp only [step] at hv
    rcases List.mem_append.mp hv with h | h
    · exact hs v h
    · simp only [List.mem_singleton] at h
      subst h; simp
  | push_back c x =>
    intro v hv
    simp only [step] at hv
    split_ifs at hv with hc hfull
    · exact hs v hv
    · rcases List.mem_or_eq_of_mem_set hv with h | h
      · exact hs v h
      · subst h
        have := hs (w.vecs.getD c []) (getD_mem_of_lt w c hc)
        simp only [List.length_append, List.length_singleton]
        omega
    · exact hs v hv
  | pop_back c =>
    intro v hv
    simp only [step] at hv
    split_ifs at hv with hc hz
    · exact hs v hv
    · rcases List.mem_or_eq_of_mem_set hv with h | h
      · exact hs v h
      · subst h
        have := hs (w.vecs.getD c []) (getD_mem_of_lt w c hc)
        simp only [List.length_dropLast]
        omega
    · exact hs v hv
  | clear c =>
    intro v hv
    simp only [step] at hv
    split_ifs at hv with hc
    · rcases List.mem_or_eq_of_mem_set hv with h | h
      · exact hs v h
      · subst h; simp
    · exact hs v hv
  | write c i x =>
    intro v hv
    simp only [step] at hv
    split_ifs at hv with hc hi
    · rcases List.mem_or_eq_of_mem_set hv with h | h
      · exact hs v h
      · subst h
        have := hs (w.vecs.getD c []) (getD_mem_of_lt w c hc)
        simpa using this
    · exact hs v hv
    · exact hs v hv
  | copy_construct s =>
    intro v hv
    simp only [step] at hv
    split_ifs at hv with hsc
    · rcases List.mem_append.mp hv with h | h
      · exact hs v h
      · simp only [List.mem_singleton] at h
        subst h
        rw [length_refresh]
        exact hs (w.vecs.getD s []) (getD_mem_of_lt w s hsc)
    · exact hs v hv
  | move_construct s =>
    intro v hv
    simp only [step] at hv
    split_ifs at hv with hsc
    · rcases List.mem_append.mp hv with h | h
      · rcases List.mem_or_eq_of_mem_set h with h2 | h2
        · exact hs v h2
        · subst h2; simp
      · simp only [List.mem_singleton] at h
        subst h
        rw [length_refresh]
        exact hs (w.vecs.getD s []) (getD_mem_of_lt w s hsc)
    · exact hs v hv
  | copy_assign d s =>
    intro v hv
    simp only [step] at hv
    split_ifs at hv with hds hdd
    · exact hs v hv
    · rcases List.mem_or_eq_of_mem_set hv with h | h
      · exact hs v h
      · subst h
        rw [length_refresh]
        exact hs (w.vecs.getD s []) (getD_mem_of_lt w s hds.2)
    · exact hs v hv
  | move_assign d s =>
    intro v hv
    simp only [step] at hv
    split_ifs at hv with hds hdd
    · exact hs v hv
    · rcases List.mem_or_eq_of_mem_set hv with h | h
      · rcases List.mem_or_eq_of_mem_set h with h2 | h2
        · exact hs v h2
        · subst h2
          rw [length_refresh]
          exact hs (w.vecs.getD s []) (getD_mem_of_lt w s hds.2)
      · subst h; simp
    · exact hs v hv

/-- The initial world satisfies the capacity invariant. -/
theorem SizeInv_init {T : Type} {Capacity : Nat} :
    SizeInv (initWorld : World T Capacity) := by
  intro v hv
  simp [initWorld] at hv

/-- Any run from a world within capacity stays within capacity. -/
theorem SizeInv_run {T : Type} {Capacity : Nat} (ops : List (Op T))
    (w : World T Capacity) (hs : SizeInv w) : SizeInv (run w ops) := by
  induction ops generalizing w with
  | nil => exact hs
  | cons op rest ih => exact ih (step w op) (SizeInv_step w op hs)

/-! ## Helper facts for the claim theorems -/

theorem push_back_full {T : Type} {Capacity : Nat}
    (v : static_vector T Capacity) (x : T) (h : v.size ≥ Capacity) :
    v.push_back x = (.OutOfSpace, v) := by
  simp [static_vector.push_back, h]

theorem push_back_ok {T : Type} {Capacity : Nat}
    (v : static_vector T Capacity) (x : T) (h : v.size < Capacity) :
    v.push_back x = (.NoError, ⟨v.elems ++ [x]⟩) := by
  simp [static_vector.push_back, Nat.not_le.2 h]

theorem pushSeq_ok {T : Type} {Capacity : Nat}
    (v : static_vector T Capacity) (xs : List T)
    (h : v.size + xs.length ≤ Capacity) :
    (static_vector.pushSeq v xs).1
        = List.replicate xs.length StaticVectorErrorCode.NoError ∧
    (static_vector.pushSeq v xs).2 = ⟨v.elems ++ xs⟩ := by
  induction xs generalizing v with
  | nil => simp [static_vector.pushSeq]
  | cons y ys ih =>
    have hlt : v.size < Capacity := by
      simp only [List.length_cons] at h; omega
    have hpush := push_back_ok v y hlt
    have hlen : (⟨v.elems ++ [y]⟩ : static_vector T Capacity).size
        = v.size + 1 := by
      simp [static_vector.size]
    have ih2 := ih ⟨v.elems ++ [y]⟩ (by
      rw [hlen]; simp only [List.length_cons] at h; omega)
    simp only [static_vector.pushSeq, hpush, List.length_cons,
      List.replicate_succ]
    refine ⟨by rw [ih2.1], by rw [ih2.2]; simp⟩

/-! ## Claim theorems -/

/-- C1.  Push contract: for every container state, if `count == Capacity`
then `push_back` and `emplace_back` return `OutOfSpace` and perform no
mutation; if `count < Capacity` they construct the new element at slot
`count`, increment `count`, return `NoError`, and leave slots
`[0, count)` unchanged.  Consequently `Capacity` successive pushes into an
empty container all return `NoError` leaving `size = Capacity`, and one
further push returns `OutOfSpace` leaving the size unchanged. -/
theorem claim_C1_push_contract {T : Type} {Capacity : Nat} :
    ∀ (v : static_vector T Capacity) (x : T),
      (v.size = Capacity →
        v.emplace_back x = (.OutOfSpace, v) ∧
        v.push_back x = (.OutOfSpace, v)) ∧
      (v.size < Capacity →
        v.emplace_back x = (.NoError, ⟨v.elems ++ [x]⟩) ∧
        v.push_back x = (.NoError, ⟨v.elems ++ [x]⟩) ∧
        (v.push_back x).2.size = v.size + 1 ∧
        (∀ i : Nat, i < v.size →
          (v.push_back x).2.elems[i]? = v.elems[i]?) ∧
        (v.push_back x).2.elems[v.size]? = some x) ∧
      (∀ xs : List T, xs.length = Capacity →
        (static_vector.pushSeq
            (static_vector.mkEmpty : static_vector T Capacity) xs).1
          = List.replicate Capacity StaticVectorErrorCode.NoError ∧
        (static_vector.pushSeq
            (static_vector.mkEmpty : static_vector T Capacity) xs).2.size
          = Capacity ∧
        (static_vector.pushSeq
            (static_vector.mkEmpty : static_vector T Capacity) xs).2.push_back x
          = (.OutOfSpace,
             (static_vector.pushSeq
               (static_vector.mkEmpty : static_vector T Capacity) xs).2)) := by
  intro v x
  refine ⟨?_, ?_, ?_⟩
  · intro h
    have hge : v.size ≥ Capacity := by omega
    exact ⟨by simp [static_vector.emplace_back, hge], push_back_full v x hge⟩
  · intro h
    have hok := push_back_ok v x h
    refine ⟨by simp [static_vector.emplace_back, Nat.not_le.2 h], hok, ?_, ?_, ?_⟩
    · rw [hok]; simp [static_vector.size]
    · intro i hi
      rw [hok]
      simp only [static_vector.size] at hi
      simp [List.getElem?_append, hi]
    · rw [hok]
      simp only [static_vector.size]
      simp [List.getElem?_append]
  · intro xs hxs
    have hseq := pushSeq_ok (static_vector.mkEmpty : static_vector T Capacity) xs
      (by simp [static_vector.size, static_vector.mkEmpty, hxs])
    have hsz : (static_vector.pushSeq
        (static_vector.mkEmpty : static_vector T Capacity) xs).2.size
        = Capacity := by
      rw [hseq.2]; simp [static_vector.size, static_vector.mkEmpty, hxs]
    refine ⟨by rw [hseq.1, hxs], hsz, ?_⟩
    exact push_back_full _ x (by omega)

/-- C1 witness: concrete instances of the three branches of the push
contract at capacity 2. -/
theorem claim_C1_push_contract_witness :
    (static_vector.emplace_back (⟨[1, 2]⟩ : static_vector Nat 2) 3
      = (.OutOfSpace, ⟨[1, 2]⟩)) ∧
    (static_vector.push_back (⟨[1]⟩ : static_vector Nat 2) 3
      = (.NoError, ⟨[1, 3]⟩)) ∧
    ((static_vector.pushSeq
        (static_vector.mkEmpty : static_vector Nat 2) [4, 5]).1
      = List.replicate 2 StaticVectorErrorCode.NoError) := by
  refine ⟨?_, ?_, ?_⟩
  · exact ((claim_C1_push_contract ⟨[1, 2]⟩ 3).1 (by decide)).1
  · exact ((claim_C1_push_contract ⟨[1]⟩ 3).2.1 (by decide)).2.1
  · exact ((claim_C1_push_contract (static_vector.mkEmpty : static_vector Nat 2) 0).2.2
      [4, 5] (by decide)).1

/-- C2.  pop_back contract: on an empty container `pop_back` returns
`Empty` with no mutation; on a non-empty container it returns `NoError`,
removes exactly the element at slot `count-1` (the world model shows its
destructor — and only its — runs), decrements the count, and leaves
slots `[0, count-1)` unchanged. -/
theorem claim_C2_pop_contract {T : Type} {Capacity : Nat} :
    (∀ (v : static_vector T Capacity),
      (v.size = 0 → v.pop_back = (.Empty, v)) ∧
      (0 < v.size →
        v.pop_back = (.NoError, ⟨v.elems.dropLast⟩) ∧
        v.pop_back.2.size = v.size - 1 ∧
        (∀ i : Nat, i < v.size - 1 →
          v.pop_back.2.elems[i]? = v.elems[i]?))) ∧
    (∀ (w : World T Capacity) (c : Nat), c < w.vecs.length →
      0 < (w.vecs.getD c []).length →
        (step w (.pop_back c)).destroyed
          = w.destroyed ++
            [(ids (w.vecs.getD c [])).getD
              ((w.vecs.getD c []).length - 1) 0] ∧
        (step w (.pop_back c)).vecs.getD c []
          = (w.vecs.getD c []).dropLast) := by
  constructor
  · intro v
    constructor
    · intro h
      simp [static_vector.pop_back, h]
    · intro h
      have hpop : v.pop_back = (.NoError, ⟨v.elems.dropLast⟩) := by
        simp [static_vector.pop_back, Nat.pos_iff_ne_zero.mp h]
      refine ⟨hpop, ?_, ?_⟩
      · rw [hpop]; simp [static_vector.size]
      · intro i hi
        rw [hpop]
        simp only [static_vector.size] at hi
        show v.elems.dropLast[i]? = v.elems[i]?
        rw [List.dropLast_eq_take, List.getElem?_take]
        simp [hi]
  · intro w c hc hlen
    have hz : ¬((w.vecs.getD c []).length = 0) := by omega
    constructor
    · simp only [step, if_pos hc, if_neg hz]
      have hne : ids (w.vecs.getD c []) ≠ [] := by
        intro hcon
        have hlen0 : (ids (w.vecs.getD c [])).length = 0 := by
          rw [hcon]; rfl
        simp only [ids, List.length_map] at hlen0
        omega
      have hd : ids ((w.vecs.getD c []).drop ((w.vecs.getD c []).length - 1))
          = [(ids (w.vecs.getD c [])).getD
              ((w.vecs.getD c []).length - 1) 0] := by
        show ((w.vecs.getD c []).drop ((w.vecs.getD c []).length - 1)).map Prod.fst = _
        rw [List.map_drop]
        have := drop_length_sub_one ((w.vecs.getD c []).map Prod.fst) 0
          (by simpa [ids] using hne)
        rw [List.length_map] at this
        exact this
      rw [hd]
    · simp only [step, if_pos hc, if_neg hz]
      exact list_getD_set_self _ c _ _ hc

/-- C2 witness: popping a two-element container and popping an empty
container, plus the world-model destruction of exactly the last slot. -/
theorem claim_C2_pop_contract_witness :
    (static_vector.pop_back (⟨[1, 2]⟩ : static_vector Nat 2)
      = (.NoError, ⟨[1]⟩)) ∧
    (static_vector.pop_back (⟨[]⟩ : static_vector Nat 2)
      = (.Empty, ⟨[]⟩)) ∧
    ((step (⟨2, [[(0, 5), (1, 6)]], [], []⟩ : World Nat 2)
        (.pop_back 0)).destroyed = [1]) := by
  refine ⟨?_, ?_, ?_⟩
  · exact (((claim_C2_pop_contract.1 ⟨[1, 2]⟩).2 (by decide)).1)
  · exact ((claim_C2_pop_contract.1 ⟨[]⟩).1 (by decide))
  · have h := (claim_C2_pop_contract.2
      (⟨2, [[(0, 5), (1, 6)]], [], []⟩ : World Nat 2) 0
      (by decide) (by decide)).1
    rw [h]; rfl

/-- C7.  Checked access: `at_if k` is absent exactly when `k ≥ size()` and
otherwise yields element `k`; `front_if`/`back_if` are absent exactly when
the container is empty and otherwise yield element `0` / element
`size()-1`.  All three are pure functions of the container (no mutation,
no error signal). -/
theorem claim_C7_checked_access {T : Type} {Capacity : Nat} :
    ∀ (v : static_vector T Capacity) (k : Nat),
      (v.at_if k = none ↔ v.size ≤ k) ∧
      (∀ h : k < v.elems.length, v.at_if k = some (v.elems.get ⟨k, h⟩)) ∧
      (v.front_if = none ↔ v.size = 0) ∧
      (∀ h : 0 < v.elems.length, v.front_if = some (v.elems.get ⟨0, h⟩)) ∧
      (v.back_if = none ↔ v.size = 0) ∧
      (∀ h : 0 < v.elems.length,
        v.back_if = some (v.elems.get ⟨v.elems.length - 1,
          Nat.sub_lt h Nat.one_pos⟩)) := by
  intro v k
  refine ⟨?_, ?_, ?_, ?_, ?_, ?_⟩
  · constructor
    · intro h
      by_contra hk
      have hlt : k < v.size := by omega
      simp only [static_vector.at_if, if_pos hlt] at h
      rw [List.getElem?_eq_getElem hlt] at h
      exact Option.noConfusion h
    · intro h
      simp [static_vector.at_if, Nat.not_lt.2 h]
  · intro h
    simp only [static_vector.at_if, static_vector.size, if_pos h]
    rw [List.getElem?_eq_getElem h, List.get_eq_getElem]
  · constructor
    · intro h
      by_contra hk
      have hlt : 0 < v.size := by omega
      simp only [static_vector.front_if, if_pos hlt] at h
      rw [List.getElem?_eq_getElem hlt] at h
      exact Option.noConfusion h
    · intro h
      simp [static_vector.front_if, h]
  · intro h
    simp only [static_vector.front_if, static_vector.size, if_pos h]
    rw [List.getElem?_eq_getElem h, List.get_eq_getElem]
  · constructor
    · intro h
      by_contra hk
      have hlt : 0 < v.size := by omega
      simp only [static_vector.back_if, if_pos hlt] at h
      have hb : v.size - 1 < v.elems.length := Nat.sub_lt hlt Nat.one_pos
      rw [List.getElem?_eq_getElem hb] at h
      exact Option.noConfusion h
    · intro h
      simp [static_vector.back_if, h]
  · intro h
    have hb : v.elems.length - 1 < v.elems.length := Nat.sub_lt h Nat.one_pos
    simp only [static_vector.back_if, static_vector.size]
    rw [if_pos h, List.getElem?_eq_getElem hb, List.get_eq_getElem]

/-- C7 witness: checked access on a concrete two-element container and on
an empty one. -/
theorem claim_C7_checked_access_witness :
    (static_vector.at_if (⟨[7, 8]⟩ : static_vector Nat 3) 1 = some 8) ∧
    (static_vector.at_if (⟨[7, 8]⟩ : static_vector Nat 3) 2 = none) ∧
    (static_vector.front_if (⟨[7, 8]⟩ : static_vector Nat 3) = some 7) ∧
    (static_vector.back_if (⟨[7, 8]⟩ : static_vector Nat 3) = some 8) ∧
    (static_vector.front_if (⟨[]⟩ : static_vector Nat 3) = none) := by
  refine ⟨?_, ?_, ?_, ?_, ?_⟩
  · exact (claim_C7_checked_access ⟨[7, 8]⟩ 1).2.1 (by decide)
  · exact (claim_C7_checked_access (⟨[7, 8]⟩ : static_vector Nat 3) 2).1.mpr (by decide)
  · exact (claim_C7_checked_access (⟨[7, 8]⟩ : static_vector Nat 3) 0).2.2.2.1 (by decide)
  · exact (claim_C7_checked_access (⟨[7, 8]⟩ : static_vector Nat 3) 0).2.2.2.2.2 (by decide)
  · exact (claim_C7_checked_access (⟨[]⟩ : static_vector Nat 3) 0).2.2.1.mpr (by decide)

theorem push_preserves_other {T : Type} {Capacity : Nat}
    (w : World T Capacity) (d c : Nat) (x : T) (h : d ≠ c) :
    (step w (.push_back d x)).vecs.getD c [] = w.vecs.getD c [] := by
  simp only [step]
  split_ifs with h1 h2
  · rfl
  · exact list_getD_set_ne _ _ _ _ _ h
  · rfl

theorem pop_preserves_other {T : Type} {Capacity : Nat}
    (w : World T Capacity) (d c : Nat) (h : d ≠ c) :
    (step w (.pop_back d)).vecs.getD c [] = w.vecs.getD c [] := by
  simp only [step]
  split_ifs with h1 h2
  · rfl
  · exact list_getD_set_ne _ _ _ _ _ h
  · rfl

theorem clear_preserves_other {T : Type} {Capacity : Nat}
    (w : World T Capacity) (d c : Nat) (h : d ≠ c) :
    (step w (.clear d)).vecs.getD c [] = w.vecs.getD c [] := by
  simp only [step]
  split_ifs with h1
  · exact list_getD_set_ne _ _ _ _ _ h
  · rfl

theorem write_preserves_other {T : Type} {Capacity : Nat}
    (w : World T Capacity) (d c i : Nat) (x : T) (h : d ≠ c) :
    (step w (.write d i x)).vecs.getD c [] = w.vecs.getD c [] := by
  simp only [step]
  split_ifs with h1 h2
  · exact list_getD_set_ne _ _ _ _ _ h
  · rfl
  · rfl

/-- C3.  Copy round-trip: copy construction (and copy assignment into a
distinct destination) produces a container with the same length and the
same values slot by slot, leaves the source unchanged, and afterwards
mutating the copy (`push_back`, `pop_back`, `clear`, or an element write)
never changes the source container. -/
theorem claim_C3_copy_roundtrip {T : Type} {Capacity : Nat} :
    ∀ (w : World T Capacity) (c : Nat), c < w.vecs.length →
      (vals ((step w (.copy_construct c)).vecs.getD w.vecs.length [])
          = vals (w.vecs.getD c []) ∧
       ((step w (.copy_construct c)).vecs.getD w.vecs.length []).length
          = (w.vecs.getD c []).length ∧
       (step w (.copy_construct c)).vecs.getD c [] = w.vecs.getD c []) ∧
      (∀ d : Nat, d < w.vecs.length → d ≠ c →
        vals ((step w (.copy_assign d c)).vecs.getD d [])
            = vals (w.vecs.getD c []) ∧
        ((step w (.copy_assign d c)).vecs.getD d []).length
            = (w.vecs.getD c []).length ∧
        (step w (.copy_assign d c)).vecs.getD c [] = w.vecs.getD c []) ∧
      (∀ (x : T) (i : Nat),
        (step (step w (.copy_construct c))
            (.push_back w.vecs.length x)).vecs.getD c []
          = (step w (.copy_construct c)).vecs.getD c [] ∧
        (step (step w (.copy_construct c))
            (.pop_back w.vecs.length)).vecs.getD c []
          = (step w (.copy_construct c)).vecs.getD c [] ∧
        (step (step w (.copy_construct c))
            (.clear w.vecs.length)).vecs.getD c []
          = (step w (.copy_construct c)).vecs.getD c [] ∧
        (step (step w (.copy_construct c))
            (.write w.vecs.length i x)).vecs.getD c []
          = (step w (.copy_construct c)).vecs.getD c []) := by
  intro w c hc
  have hne : w.vecs.length ≠ c := by omega
  refine ⟨⟨?_, ?_, ?_⟩, ?_, ?_⟩
  · simp only [step, if_pos hc]
    rw [list_getD_concat_self]
    exact vals_refresh _ _
  · simp only [step, if_pos hc]
    rw [list_getD_concat_self]
    exact length_refresh _ _
  · simp only [step, if_pos hc]
    exact list_getD_append_lt _ _ _ _ hc
  · intro d hd hdc
    have hds : d < w.vecs.length ∧ c < w.vecs.length := ⟨hd, hc⟩
    refine ⟨?_, ?_, ?_⟩
    · simp only [step, if_pos hds, if_neg hdc]
      rw [list_getD_set_self _ _ _ _ hd]
      exact vals_refresh _ _
    · simp only [step, if_pos hds, if_neg hdc]
      rw [list_getD_set_self _ _ _ _ hd]
      exact length_refresh _ _
    · simp only [step, if_pos hds, if_neg hdc]
      exact list_getD_set_ne _ _ _ _ _ hdc
  · intro x i
    exact ⟨push_preserves_other _ _ _ _ hne, pop_preserves_other _ _ _ hne,
      clear_preserves_other _ _ _ hne, write_preserves_other _ _ _ _ _ hne⟩

/-- C3 witness: copy-constructing from a concrete two-element container
yields the same values, leaves the source intact, and pushing into the
copy does not change the source. -/
theorem claim_C3_copy_roundtrip_witness :
    vals ((step (⟨2, [[(0, 10), (1, 11)]], [], []⟩ : World Nat 3)
        (.copy_construct 0)).vecs.getD 1 []) = [10, 11] ∧
    (step (⟨2, [[(0, 10), (1, 11)]], [], []⟩ : World Nat 3)
        (.copy_construct 0)).vecs.getD 0 [] = [(0, 10), (1, 11)] ∧
    (step (step (⟨2, [[(0, 10), (1, 11)]], [], []⟩ : World Nat 3)
          (.copy_construct 0)) (.push_back 1 99)).vecs.getD 0 []
      = (step (⟨2, [[(0, 10), (1, 11)]], [], []⟩ : World Nat 3)
          (.copy_construct 0)).vecs.getD 0 [] := by
  have h := claim_C3_copy_roundtrip
    (⟨2, [[(0, 10), (1, 11)]], [], []⟩ : World Nat 3) 0 (by decide)
  exact ⟨h.1.1, h.1.2.2, (h.2.2 99 0).1⟩

/-- C4.  Move-construction round-trip: the new container holds the source
values in order and with the source's length, the moved-from source is
left with no live elements, and its contents equal those of a freshly
default-constructed container (so it behaves like one afterwards). -/
theorem claim_C4_move_roundtrip {T : Type} {Capacity : Nat} :
    ∀ (w : World T Capacity) (s : Nat), s < w.vecs.length →
      vals ((step w (.move_construct s)).vecs.getD w.vecs.length [])
        = vals (w.vecs.getD s []) ∧
      ((step w (.move_construct s)).vecs.getD w.vecs.length []).length
        = (w.vecs.getD s []).length ∧
      (step w (.move_construct s)).vecs.getD s [] = [] ∧
      (step w .default_construct).vecs.getD w.vecs.length [] = [] := by
  intro w s hs
  have hconcat : ((w.vecs.set s []) ++
        [refresh w.next (w.vecs.getD s [])]).getD w.vecs.length []
      = refresh w.next (w.vecs.getD s []) := by
    have h := list_getD_concat_self (w.vecs.set s [])
      (refresh w.next (w.vecs.getD s [])) []
    rwa [List.length_set] at h
  refine ⟨?_, ?_, ?_, ?_⟩
  · simp only [step, if_pos hs]
    rw [hconcat]
    exact vals_refresh _ _
  · simp only [step, if_pos hs]
    rw [hconcat]
    exact length_refresh _ _
  · simp only [step, if_pos hs]
    rw [list_getD_append_lt _ _ _ _ (by simpa using hs)]
    exact list_getD_set_self _ _ _ _ hs
  · simp only [step]
    exact list_getD_concat_self _ _ _

/-- C4 witness: move-constructing from a concrete two-element container. -/
theorem claim_C4_move_roundtrip_witness :
    vals ((step (⟨2, [[(0, 4), (1, 5)]], [], []⟩ : World Nat 2)
        (.move_construct 0)).vecs.getD 1 []) = [4, 5] ∧
    (step (⟨2, [[(0, 4), (1, 5)]], [], []⟩ : World Nat 2)
        (.move_construct 0)).vecs.getD 0 [] = [] := by
  have h := claim_C4_move_roundtrip
    (⟨2, [[(0, 4), (1, 5)]], [], []⟩ : World Nat 2) 0 (by decide)
  exact ⟨h.1, h.2.2.1⟩

/-- C5.  Move assignment between distinct containers: the destination's
old elements are destroyed first (their destructor identities are
appended to the trace ahead of the source's), the source's values are
moved into the destination preserving count, and the source is left
empty. -/
theorem claim_C5_move_assign {T : Type} {Capacity : Nat} :
    ∀ (w : World T Capacity) (d s : Nat),
      d < w.vecs.length → s < w.vecs.length → d ≠ s →
        (step w (.move_assign d s)).destroyed
          = w.destroyed ++ ids (w.vecs.getD d []) ++ ids (w.vecs.getD s []) ∧
        vals ((step w (.move_assign d s)).vecs.getD d [])
          = vals (w.vecs.getD s []) ∧
        ((step w (.move_assign d s)).vecs.getD d []).length
          = (w.vecs.getD s []).length ∧
        (step w (.move_assign d s)).vecs.getD s [] = [] := by
  intro w d s hd hs hne
  have hds : d < w.vecs.length ∧ s < w.vecs.length := ⟨hd, hs⟩
  have hgd : ((w.vecs.set d (refresh w.next (w.vecs.getD s []))).set s
        []).getD d []
      = refresh w.next (w.vecs.getD s []) := by
    rw [list_getD_set_ne _ _ _ _ _ (fun hsd => hne hsd.symm)]
    exact list_getD_set_self _ _ _ _ hd
  refine ⟨?_, ?_, ?_, ?_⟩
  · simp only [step, if_pos hds, if_neg hne]
  · simp only [step, if_pos hds, if_neg hne]
    rw [hgd]
    exact vals_refresh _ _
  · simp only [step, if_pos hds, if_neg hne]
    rw [hgd]
    exact length_refresh _ _
  · simp only [step, if_pos hds, if_neg hne]
    exact list_getD_set_self _ _ _ _ (by simpa using hs)

/-- C5 witness: move-assigning a one-element container into a two-element
container destroys the destination's two elements first, then the
source's moved-from element, and leaves the source empty. -/
theorem claim_C5_move_assign_witness :
    (step (⟨3, [[(0, 1), (1, 2)], [(2, 9)]], [], []⟩ : World Nat 2)
        (.move_assign 0 1)).destroyed = [0, 1, 2] ∧
    (step (⟨3, [[(0, 1), (1, 2)], [(2, 9)]], [], []⟩ : World Nat 2)
        (.move_assign 0 1)).vecs.getD 1 [] = [] ∧
    vals ((step (⟨3, [[(0, 1), (1, 2)], [(2, 9)]], [], []⟩ : World Nat 2)
        (.move_assign 0 1)).vecs.getD 0 []) = [9] := by
  have h := claim_C5_move_assign
    (⟨3, [[(0, 1), (1, 2)], [(2, 9)]], [], []⟩ : World Nat 2) 0 1
    (by decide) (by decide) (by decide)
  refine ⟨?_, h.2.2.2, ?_⟩
  · rw [h.1]; rfl
  · rw [h.2.1]; rfl

/-- C6.  `clear` destroys all live elements in slot order and empties the
container; calling it on an already-empty container is a no-op, so a
second consecutive `clear` changes nothing (in particular it performs no
further destructor calls). -/
theorem claim_C6_clear_idempotent {T : Type} {Capacity : Nat} :
    ∀ (w : World T Capacity) (c : Nat), c < w.vecs.length →
      ((step w (.clear c)).destroyed
          = w.destroyed ++ ids (w.vecs.getD c []) ∧
       (step w (.clear c)).vecs.getD c [] = []) ∧
      (w.vecs.getD c [] = [] → step w (.clear c) = w) ∧
      step (step w (.clear c)) (.clear c) = step w (.clear c) := by
  intro w c hc
  have hnoop : ∀ (w2 : World T Capacity), c < w2.vecs.length →
      w2.vecs.getD c [] = [] → step w2 (.clear c) = w2 := by
    intro w2 hc2 hz
    simp only [step, if_pos hc2]
    rw [hz]
    have h2 : w2.vecs.set c [] = w2.vecs := by
      conv_lhs => rw [← hz]
      exact list_set_getD_self _ _ _
    simp [ids, h2]
  have hset : (step w (.clear c)).vecs.getD c [] = [] := by
    simp only [step, if_pos hc]
    exact list_getD_set_self _ _ _ _ hc
  refine ⟨⟨?_, hset⟩, hnoop w hc, ?_⟩
  · simp only [step, if_pos hc]
  · refine hnoop _ ?_ hset
    simp only [step, if_pos hc]
    simpa using hc

/-- C6 witness: clearing a concrete two-element container destroys ids 0
then 1, and a second clear is a no-op. -/
theorem claim_C6_clear_idempotent_witness :
    (step (⟨2, [[(0, 3), (1, 4)]], [], []⟩ : World Nat 2)
        (.clear 0)).destroyed = [0, 1] ∧
    step (step (⟨2, [[(0, 3), (1, 4)]], [], []⟩ : World Nat 2) (.clear 0))
        (.clear 0)
      = step (⟨2, [[(0, 3), (1, 4)]], [], []⟩ : World Nat 2) (.clear 0) := by
  have h := claim_C6_clear_idempotent
    (⟨2, [[(0, 3), (1, 4)]], [], []⟩ : World Nat 2) 0 (by decide)
  exact ⟨by rw [h.1.1]; rfl, h.2.2⟩

/-- C10.  Self-assignment is a no-op: both `operator=(const&)` and
`operator=(&&)` compare `this` with `&other` and skip all work when the
two refer to the same container, so the whole world — sizes, elements and
destructor trace — is unchanged. -/
theorem claim_C10_self_assign_noop {T : Type} {Capacity : Nat} :
    ∀ (w : World T Capacity) (c : Nat),
      step w (.copy_assign c c) = w ∧ step w (.move_assign c c) = w := by
  intro w c
  constructor
  · simp only [step]
    split_ifs <;> rfl
  · simp only [step]
    split_ifs <;> rfl

/-- C9.  Capacity invariant: starting from nothing, after any sequence of
operations every container's live count is at most `Capacity`, and
`capacity()` returns the compile-time constant `Capacity` for every
container value whatever its size. -/
theorem claim_C9_capacity_invariant {T : Type} {Capacity : Nat} :
    (∀ (ops : List (Op T)) (v : List (Nat × T)),
      v ∈ (run (initWorld : World T Capacity) ops).vecs →
        v.length ≤ Capacity) ∧
    (∀ (sv : static_vector T Capacity), sv.capacity = Capacity) := by
  constructor
  · intro ops v hv
    exact SizeInv_run ops initWorld SizeInv_init v hv
  · intro sv
    rfl

/-- C9 witness: after a concrete run the single container holds one
element, within its capacity 1, and `capacity` evaluates to 1. -/
theorem claim_C9_capacity_invariant_witness :
    ([(0, 5)] ∈ (run (initWorld : World Nat 1)
        [.default_construct, .push_back 0 5]).vecs) ∧
    ([(0, 5)] : List (Nat × Nat)).length ≤ 1 ∧
    static_vector.capacity (⟨[9]⟩ : static_vector Nat 1) = 1 := by
  refine ⟨by decide, ?_, claim_C9_capacity_invariant.2 ⟨[9]⟩⟩
  exact claim_C9_capacity_invariant.1
    [.default_construct, .push_back 0 5] [(0, 5)] (by decide)

/-- C8 counterexample: one capacity-1 container receives one element
(ghost identity 0); a second container is move-constructed from it and
every container is then destroyed.  Identities 0 and 1 were both
constructed (`next = 2`), but only identity 1 — the move-constructed
copy — is ever destroyed: the moved-from element 0 is leaked because the
move constructor sets `other.size_ = 0` without running any destructor.
So it is false that every element ever constructed is destroyed exactly
once. -/
theorem claim_C8_exactly_once_counterexample :
    (finish (run (initWorld : World Nat 1)
        [.default_construct, .push_back 0 7, .move_construct 0])).next
      = 2 ∧
    (finish (run (initWorld : World Nat 1)
        [.default_construct, .push_back 0 7, .move_construct 0])).destroyed
      = [1] ∧
    (finish (run (initWorld : World Nat 1)
        [.default_construct, .push_back 0 7, .move_construct 0])).leaked
      = [0] ∧
    ¬ ((finish (run (initWorld : World Nat 1)
        [.default_construct, .push_back 0 7, .move_construct 0])).destroyed.count 0
      = 1) := by
  decide

/-- C8 (amended).  Over any operation sequence followed by destruction of
every container, no element's destructor ever runs twice; and every
element ever constructed is either destroyed exactly once or — exactly
when it was live in the source of a move construction — leaked with its
destructor never run (destroyed-count plus leaked-count is exactly 1). -/
theorem claim_C8_destroy_at_most_once {T : Type} {Capacity : Nat} :
    ∀ (ops : List (Op T)) (a : Nat),
      (finish (run (initWorld : World T Capacity)
          ops)).destroyed.count a ≤ 1 ∧
      (a < (finish (run (initWorld : World T Capacity)
            ops)).next →
        (finish (run (initWorld : World T Capacity)
            ops)).destroyed.count a
          + (finish (run (initWorld : World T Capacity)
              ops)).leaked.count a = 1) := by
  intro ops a
  have hwf := WF_finish _
    (WF_run ops (initWorld : World T Capacity) WF_init)
  have h := hwf a
  have hlive : (live (finish (run (initWorld : World T Capacity)
      ops))).count a = 0 := by
    simp [live, finish]
  simp only [counts] at h
  rw [hlive] at h
  constructor
  · split_ifs at h <;> omega
  · intro hn
    rw [if_pos hn] at h
    omega

/-- C8 amended witness: in a run that pushes one element and clears, the
constructed element (identity 0) is destroyed exactly once and never
leaked. -/
theorem claim_C8_destroy_at_most_once_witness :
    (0 < (finish (run (initWorld : World Nat 1)
        [.default_construct, .push_back 0 3, .clear 0])).next) ∧
    ((finish (run (initWorld : World Nat 1)
        [.default_construct, .push_back 0 3, .clear 0])).destroyed.count 0
      + (finish (run (initWorld : World Nat 1)
        [.default_construct, .push_back 0 3, .clear 0])).leaked.count 0
      = 1) := by
  refine ⟨by decide, ?_⟩
  exact (claim_C8_destroy_at_most_once
    [.default_construct, .push_back 0 3, .clear 0] 0).2 (by decide)
